import Mathlib

/-!
Shallow embedding of the excel-comment-extractor core
(`src/services/excelService.ts` and `src/services/translationService.ts`).

JavaScript strings are modelled as `String` or `List Char`; the `\s`
whitespace class is modelled by its ASCII members (space, tab, `\n`, `\r`,
vertical tab, form feed), which covers every input appearing in the
development.  JS `Map`s (insertion-ordered, `set` overwrites in place) are
modelled as association lists with `mapSet` or `mapGet`.  The regex
replacements of `cleanCommentContent` are compiled to deterministic
scanners; fuel arguments (always called with the input length, which is
shown sufficient because every step consumes at least one character) make
them structurally recursive so that concrete runs reduce by `rfl`.
-/

/-- ASCII members of the JS regex class `\s`. -/
def isWs (c : Char) : Bool :=
  c == ' ' || c == '\t' || c == '\n' || c == '\r' || c == '\x0b' || c == '\x0c'

/-- Line terminators recognised by JS multiline `^` and `$` (`\n`, `\r`). -/
def isNL (c : Char) : Bool :=
  c == '\n' || c == '\r'

/-- The character class `[A-Za-z0-9_-]` of the ID tag patterns. -/
def isIdChar (c : Char) : Bool :=
  c.isAlphanum || c == '_' || c == '-'

/-- Remove trailing whitespace (the right half of JS `String.trim`). -/
def rtrimWs : List Char → List Char
  | [] => []
  | c :: cs =>
    let r := rtrimWs cs
    if r.isEmpty && isWs c then [] else c :: r

/-- JS `String.trim` on character lists. -/
def jsTrimL (l : List Char) : List Char :=
  rtrimWs (l.dropWhile isWs)

/-- JS `String.trim`. -/
def jsTrimS (s : String) : String :=
  ⟨jsTrimL s.data⟩

/-- Match of `={3,}\s*ID#[A-Za-z0-9_-]+\s*` at the head of the list;
returns the remainder after the match.  The greedy quantifiers of the JS
regex never backtrack here (no run character can start the next literal),
so maximal-run consumption is exact. -/
def matchBannerId (l : List Char) : Option (List Char) :=
  if (l.takeWhile (fun c => c == '=')).length < 3 then none
  else
    let r2 := (l.dropWhile (fun c => c == '=')).dropWhile isWs
    if ("ID#".data).isPrefixOf r2 then
      let r3 := r2.drop 3
      if (r3.takeWhile isIdChar).isEmpty then none
      else some ((r3.dropWhile isIdChar).dropWhile isWs)
    else none

/-- Scanner for `replace(/={3,}\s*ID#[A-Za-z0-9_-]+\s*/g, '')`:
left-to-right, deleting each match and resuming after it. -/
def removeBannerIdAux : Nat → List Char → List Char
  | 0, l => l
  | _ + 1, [] => []
  | fuel + 1, c :: cs =>
    match matchBannerId (c :: cs) with
    | some rest => removeBannerIdAux fuel rest
    | none => c :: removeBannerIdAux fuel cs

def removeBannerId (l : List Char) : List Char :=
  removeBannerIdAux l.length l

/-- Match of `={3,}\s*` at a line start (pattern of the second replace);
also reports whether the position after the match is again a line start
(the last consumed character is a line terminator). -/
def bannerLine (l : List Char) : Option (List Char × Bool) :=
  if (l.takeWhile (fun c => c == '=')).length < 3 then none
  else
    let r1 := l.dropWhile (fun c => c == '=')
    let ws := r1.takeWhile isWs
    some (r1.dropWhile isWs, match ws.getLast? with | some c => isNL c | none => false)

/-- Scanner for `replace(/^={3,}\s*/gm, '')`; the boolean tracks whether
the current position is a line start (string start or after a line
terminator). -/
def stripBannerLinesAux : Nat → Bool → List Char → List Char
  | 0, _, l => l
  | _ + 1, _, [] => []
  | fuel + 1, atLS, c :: cs =>
    if atLS then
      match bannerLine (c :: cs) with
      | some (rest, ls) => stripBannerLinesAux fuel ls rest
      | none => c :: stripBannerLinesAux fuel (isNL c) cs
    else c :: stripBannerLinesAux fuel (isNL c) cs

def stripBannerLines (l : List Char) : List Char :=
  stripBannerLinesAux l.length true l

/-- Split a list just before its last line-terminator character:
`splitLastNL w = some (a, b)` with `w = a ++ b`, `b` starting with the
last terminator of `w`; `none` when `w` has no terminator. -/
def splitLastNL : List Char → Option (List Char × List Char)
  | [] => none
  | c :: cs =>
    match splitLastNL cs with
    | some (a, b) => some (c :: a, b)
    | none => if isNL c then some ([], c :: cs) else none

/-- Match of `ID#[A-Za-z0-9_-]+\s*$` at a line start (pattern of the third
replace).  The greedy `\s*` backtracks until multiline `$` holds, i.e. the
match ends at end of input or just before the last terminator inside the
whitespace run. -/
def idLine (l : List Char) : Option (List Char × Bool) :=
  if ("ID#".data).isPrefixOf l then
    let r := l.drop 3
    if (r.takeWhile isIdChar).isEmpty then none
    else
      let r1 := r.dropWhile isIdChar
      let ws := r1.takeWhile isWs
      let after := r1.dropWhile isWs
      if after.isEmpty then some ([], false)
      else
        match splitLastNL ws with
        | some (a, b) => some (b ++ after, match a.getLast? with | some d => isNL d | none => false)
        | none => none
  else none

/-- Scanner for `replace(/^ID#[A-Za-z0-9_-]+\s*$/gm, '')`. -/
def stripIdLinesAux : Nat → Bool → List Char → List Char
  | 0, _, l => l
  | _ + 1, _, [] => []
  | fuel + 1, atLS, c :: cs =>
    if atLS then
      match idLine (c :: cs) with
      | some (rest, ls) => stripIdLinesAux fuel ls rest
      | none => c :: stripIdLinesAux fuel (isNL c) cs
    else c :: stripIdLinesAux fuel (isNL c) cs

def stripIdLines (l : List Char) : List Char :=
  stripIdLinesAux l.length true l

/-- Split a list just before its last `'\n'`. -/
def splitLastLF : List Char → Option (List Char × List Char)
  | [] => none
  | c :: cs =>
    match splitLastLF cs with
    | some (a, b) => some (c :: a, b)
    | none => if c == '\n' then some ([], c :: cs) else none

/-- `replace(/^\s*\n+/, '')`: anchored at the string start, it deletes the
leading whitespace run up to and including its last `'\n'` (the greedy
`\s*` backtracks to put `\n+` on that last newline); no leading `'\n'`
means no match. -/
def stripLeadingBlank (l : List Char) : List Char :=
  match splitLastLF (l.takeWhile isWs) with
  | some (_, b) => b.tail ++ l.dropWhile isWs
  | none => l

/-- `cleanCommentContent` of `excelService.ts` on character lists: the four
regex replacements in order, then `trim()`. -/
def cleanL (l : List Char) : List Char :=
  jsTrimL (stripLeadingBlank (stripIdLines (stripBannerLines (removeBannerId l))))

/-- `cleanCommentContent` of `excelService.ts`. -/
def cleanCommentContent (s : String) : String :=
  ⟨cleanL s.data⟩

/-! ## JS string and Map helpers -/

/-- JS `x || d` on a nullable string attribute (`null` and `""` are falsy). -/
def jsOr (o : Option String) (d : String) : String :=
  match o with
  | some s => if s = "" then d else s
  | none => d

/-- JS `x || d` on two strings (`""` is falsy). -/
def jsOrS (s d : String) : String :=
  if s = "" then d else s

/-- JS `String.includes` on character lists. -/
def jsIncludesL (pat : List Char) : List Char → Bool
  | [] => pat.isEmpty
  | c :: cs => pat.isPrefixOf (c :: cs) || jsIncludesL pat cs

/-- JS `String.includes`. -/
def jsIncludes (s pat : String) : Bool :=
  jsIncludesL pat.data s.data

/-- JS `String.endsWith`. -/
def jsEndsWith (s pat : String) : Bool :=
  pat.data.isSuffixOf s.data

/-- JS `String.toLowerCase` (ASCII, as used on file names). -/
def jsToLower (s : String) : String :=
  ⟨s.data.map Char.toLower⟩

/-- JS `String.replace` with a plain-string pattern: replaces the first
occurrence only. -/
def replaceFirstL (pat rep : List Char) : List Char → List Char
  | [] => []
  | c :: cs =>
    if pat.isPrefixOf (c :: cs) then rep ++ (c :: cs).drop pat.length
    else c :: replaceFirstL pat rep cs

def replaceFirst (s pat rep : String) : String :=
  ⟨replaceFirstL pat.data rep.data s.data⟩

/-- `target.replace(/^\//, '')`: drop a single leading slash. -/
def stripLeadSlash (s : String) : String :=
  match s.data with
  | '/' :: rest => ⟨rest⟩
  | _ => s

/-- JS `Map.set`: overwrite in place when the key exists, else append. -/
def mapSet {α : Type} (m : List (String × α)) (k : String) (v : α) : List (String × α) :=
  if m.any (fun p => p.1 == k) then m.map (fun p => if p.1 == k then (k, v) else p)
  else m ++ [(k, v)]

/-- JS `Map.get` (as an `Option`). -/
def mapGet {α : Type} (m : List (String × α)) (k : String) : Option α :=
  (m.find? (fun p => p.1 == k)).map (fun p => p.2)

/-! ## Archive model

An `Archive` is the already-parsed view of the ZIP container that
`extractThreadedComments` traverses: `DOMParser` never throws in a
browser, so each part is modelled as the element list the code reads from
it (`none` = part absent from the ZIP).  `entries` lists every ZIP entry
path in enumeration order together with its `<threadedComment>` elements
(irrelevant, and never read, for entries that are not threaded-comment
parts). -/

/-- A `<person>` element of `xl/persons/person.xml` (attributes may be
absent; `userId` is read but never used downstream). -/
structure PersonElem where
  id : Option String
  displayName : Option String
deriving DecidableEq

/-- A `<sheet>` element of `xl/workbook.xml`. -/
structure SheetElem where
  name : Option String
  rid : Option String
deriving DecidableEq

/-- A `<Relationship>` element (`Id` and `Target` attributes). -/
structure RelElem where
  relId : Option String
  target : Option String
deriving DecidableEq

/-- A `<threadedComment>` element: `ref`, `personId`, `dT` attributes and
the text content of its first `<text>` child (`none` when absent). -/
structure TCElem where
  ref : Option String
  personId : Option String
  dT : Option String
  text : Option String
deriving DecidableEq

structure Archive where
  personsPart : Option (List PersonElem)
  workbookSheets : Option (List SheetElem)
  workbookRels : Option (List RelElem)
  sheetRels : List (Nat × List RelElem)
  entries : List (String × List TCElem)

/-- A record pushed into `sheetComments` by `extractThreadedComments`. -/
structure TCRec where
  sheetName : String
  cellAddress : String
  text : String
  author : String
  timestamp : String
deriving DecidableEq

/-- Step 1 of `extractThreadedComments`: the `persons` map
(id mapped to the person's display name, the only field read later). -/
def personsMap (a : Archive) : List (String × String) :=
  match a.personsPart with
  | none => []
  | some els => els.foldl (fun m el => mapSet m (jsOr el.id "") (jsOr el.displayName "Không rõ")) []

/-- Step 2: the `sheetNames` map (relationship id mapped to sheet name,
defaulting to `Sheet{i+1}` at position `i`). -/
def sheetNamesMap (a : Archive) : List (String × String) :=
  match a.workbookSheets with
  | none => []
  | some els => els.enum.foldl
      (fun m p => mapSet m (jsOr p.2.rid "") (jsOr p.2.name ("Sheet" ++ toString (p.1 + 1)))) []

/-- Step 3: the `sheetFileMap` (worksheet part path mapped to its
relationship id). -/
def sheetFileMap (a : Archive) : List (String × String) :=
  match a.workbookRels with
  | none => []
  | some els => els.foldl
      (fun m el =>
        let rid := jsOr el.relId ""
        let target := jsOr el.target ""
        if jsIncludes target "worksheets/" then mapSet m (stripLeadSlash target) rid else m) []

/-- Step 4: the threaded-comment part paths, in ZIP enumeration order. -/
def tcFiles (a : Archive) : List String :=
  (a.entries.map (fun e => e.1)).filter (fun p => jsIncludes p "threadedComments/threadedComment")

/-- Step 5: the `sheetToThreadedComment` map, built by probing the
relationship files of worksheets `1..20`. -/
def sheetToTCMap (a : Archive) : List (String × String) :=
  ((List.range 20).map (fun i => i + 1)).foldl
    (fun m i =>
      match (a.sheetRels.find? (fun p => p.1 == i)).map (fun p => p.2) with
      | none => m
      | some rels => rels.foldl
          (fun m el =>
            let target := jsOr el.target ""
            if jsIncludes target "threadedComments/threadedComment" then
              let rid := jsOr (mapGet (sheetFileMap a) ("worksheets/sheet" ++ toString i ++ ".xml")) ""
              let sheetName := jsOr (mapGet (sheetNamesMap a) rid) ("Sheet" ++ toString i)
              mapSet m (replaceFirst target "../" "xl/") sheetName
            else m) m)
    []

/-- Digits of `parseInt` on a captured `\d+` group. -/
def digitsToNat (l : List Char) : Nat :=
  l.foldl (fun n c => n * 10 + (c.toNat - '0'.toNat)) 0

/-- `tcFile.match(/threadedComment(\d+)\.xml/)`: the number captured at
the leftmost viable occurrence, if any. -/
def findTCNum : List Char → Option Nat
  | [] => none
  | c :: cs =>
    if ("threadedComment".data).isPrefixOf (c :: cs) then
      let r := (c :: cs).drop 15
      let ds := r.takeWhile Char.isDigit
      if ds.isEmpty then findTCNum cs
      else if (".xml".data).isPrefixOf (r.dropWhile Char.isDigit) then some (digitsToNat ds)
      else findTCNum cs
    else findTCNum cs

/-- Sheet-name resolution for one threaded-comment part (step 6, lines
259-278): the relationship map first, then the `rId<N>` convention for
the numeric suffix, then the synthesized `Sheet<N>` placeholder, and
`Unknown Sheet` when even the suffix is missing. -/
def resolveSheetName (a : Archive) (p : String) : String :=
  let s0 := jsOr (mapGet (sheetToTCMap a) p) "Unknown Sheet"
  if s0 = "Unknown Sheet" then
    match findTCNum p.data with
    | none => "Unknown Sheet"
    | some idx =>
      let s1 := match mapGet (sheetNamesMap a) ("rId" ++ toString idx) with
                | some n => n
                | none => "Unknown Sheet"
      if s1 = "Unknown Sheet" then "Sheet" ++ toString idx else s1
  else s0

/-- The parsed `<threadedComment>` elements of one part. -/
def partContent (a : Archive) (p : String) : List TCElem :=
  ((a.entries.find? (fun e => e.1 == p)).map (fun e => e.2)).getD []

/-- The `sheetComments` list built for one part (lines 284-307): one
record per element whose trimmed text is non-empty; an author whose
`personId` is not in the persons table becomes the `Không rõ` sentinel. -/
def partRecords (a : Archive) (p : String) : List TCRec :=
  (partContent a p).filterMap (fun el =>
    if jsTrimS (jsOr el.text "") = "" then none
    else some { sheetName := resolveSheetName a p, cellAddress := jsOr el.ref "",
                text := jsTrimS (jsOr el.text ""),
                author := jsOr (mapGet (personsMap a) (jsOr el.personId "")) "Không rõ",
                timestamp := jsOr el.dT "" })

/-- The result map of `extractThreadedComments`: each part with a
non-empty record list is `set` under its resolved sheet name (overwriting
any earlier part with the same name). -/
def tcResultMap (a : Archive) : List (String × List TCRec) :=
  (tcFiles a).foldl
    (fun m p =>
      if (partRecords a p).isEmpty then m else mapSet m (resolveSheetName a p) (partRecords a p))
    []

/-- `extractThreadedComments` (lines 155-319): the comments map and the
`hasThreadedComments` flag, which is `false` exactly when no ZIP entry
path contains `threadedComments/threadedComment`. -/
def extractThreadedComments (a : Archive) : List (String × List TCRec) × Bool :=
  if (tcFiles a).isEmpty then ([], false)
  else (tcResultMap a, true)

/-! ## ExcelJS workbook model

The workbook an ExcelJS `workbook.xlsx.load` yields from the same buffer
(the model covers archives that load successfully; otherwise the promise
rejects before any record is produced).  Cell values are the shapes
`getCellValueAsString` distinguishes; dates, numbers and other scalar or
opaque objects are carried as the final string their `toString` or
`JSON.stringify` rendering produces, since only that rendering is read. -/

inductive CellValue where
  | empty : CellValue
  | str : String → CellValue
  | richText : List (Option String) → CellValue
  | formula : String → Option CellValue → CellValue
  | hyperlink : CellValue → CellValue
  | scalar : String → CellValue

/-- `getCellValueAsString` (lines 30-81). -/
def getCellValueAsString : CellValue → String
  | .empty => ""
  | .richText runs => String.join (runs.map (fun r => r.getD ""))
  | .formula src res =>
    match res with
    | some v => getCellValueAsString v
    | none => "=" ++ src
  | .hyperlink t => getCellValueAsString t
  | .str s => s
  | .scalar r => r

/-- A legacy note object: the fields `getCommentContent` probes, plus the
`JSON.stringify` rendering used as the last resort. -/
structure NoteObj where
  texts : Option (List (Option String))
  note : Option String
  text : Option String
  jsonDump : String

/-- A cell's `note` property: a plain string or a note object. -/
inductive Note where
  | str : String → Note
  | obj : NoteObj → Note

/-- JS truthiness of `cell.note` (an empty string is falsy). -/
def noteTruthy : Note → Bool
  | .str s => !(s == "")
  | .obj _ => true

/-- `getCommentContent` (lines 86-119): note text and inferred author. -/
def getCommentContent : Note → String × String
  | .str s => (s, "Không rõ")
  | .obj o =>
    match o.texts with
    | some ts =>
      let text := String.join (ts.map (fun t => t.getD ""))
      let firstPart := (ts.head?.getD none).getD ""
      let author := if firstPart.data.contains ':' then
                      jsTrimS ⟨firstPart.data.takeWhile (fun c => !(c == ':'))⟩
                    else "Hệ thống"
      (text, author)
    | none =>
      match o.note with
      | some s => (s, "Hệ thống")
      | none =>
        match o.text with
        | some s => (s, "Hệ thống")
        | none => (o.jsonDump, "Hệ thống")

structure ECell where
  address : String
  value : CellValue
  note : Option Note

structure ERow where
  cells : List ECell

/-- A worksheet as ExcelJS exposes it to the scan: name, rows in
`eachRow({includeEmpty})` order, cells in `eachCell({includeEmpty})`
order, and the addresses on which `worksheet.getCell` throws. -/
structure EWorksheet where
  name : String
  rows : List ERow
  badAddresses : List String

structure EWorkbook where
  sheets : List EWorksheet

def wsCells (ws : EWorksheet) : List ECell :=
  (ws.rows.map (fun r => r.cells)).flatten

/-- `worksheet.getCell(addr).value` wrapped in the try of lines 368-373:
an unknown address yields an empty new cell, a bad address throws. -/
def wsGetCellValue (ws : EWorksheet) (addr : String) : Except Unit CellValue :=
  if ws.badAddresses.contains addr then .error ()
  else .ok ((((wsCells ws).find? (fun c => c.address == addr)).map (fun c => c.value)).getD .empty)

/-- `workbook.getWorksheet(name)`. -/
def getWorksheet (wb : EWorkbook) (name : String) : Option EWorksheet :=
  wb.sheets.find? (fun ws => ws.name == name)

/-! ## extractCommentsFromFile -/

/-- The normalized output record (`ExcelComment` of `src/types`), with the
fields the extraction fills. -/
structure ExcelComment where
  sheetName : String
  cellAddress : String
  originalContent : String
  commentContent : String
  author : String
  createdDate : String
  status : String
deriving DecidableEq

/-- `formatExcelDate` (lines 321-331); `dateFmt` models the environment's
`new Date` parse plus `toISOString` formatting, `none` meaning an invalid
date, in which case the input is returned unchanged. -/
def formatExcelDate (dateFmt : String → Option String) (isoString : String) : String :=
  if isoString = "" then ""
  else
    match dateFmt isoString with
    | some f => f
    | none => isoString

def xlsMsg : String :=
  "Định dạng .xls (Excel 97-2003) không được hỗ trợ đầy đủ. Vui lòng lưu file dưới định dạng .xlsx và thử lại."

def xlsbMsg : String :=
  "Định dạng .xlsb (Excel Binary) không được hỗ trợ. Vui lòng lưu file dưới định dạng .xlsx và thử lại."

/-- The `originalContent` looked up for a threaded record (lines 365-374). -/
def threadedOriginal (wb : EWorkbook) (mapSheetName : String) (addr : String) : String :=
  match getWorksheet wb mapSheetName with
  | none => "[Ô trống]"
  | some ws =>
    match wsGetCellValue ws addr with
    | .error _ => "[Không đọc được]"
    | .ok v => jsOrS (getCellValueAsString v) "[Ô trống]"

/-- One pushed record of the threaded pass (lines 364-385). -/
def mkThreadedComment (dateFmt : String → Option String) (wb : EWorkbook)
    (mapSheetName : String) (c : TCRec) : ExcelComment :=
  { sheetName := c.sheetName, cellAddress := c.cellAddress,
    originalContent := jsTrimS (threadedOriginal wb mapSheetName c.cellAddress),
    commentContent := cleanCommentContent c.text,
    author := c.author,
    createdDate := formatExcelDate dateFmt c.timestamp,
    status := "N/A" }

/-- The records pushed by step 1 (threaded comments), in map iteration
order. -/
def threadedBlock (dateFmt : String → Option String) (a : Archive) (wb : EWorkbook) : List ExcelComment :=
  if (extractThreadedComments a).2 then
    (extractThreadedComments a).1.flatMap (fun e => e.2.map (mkThreadedComment dateFmt wb e.1))
  else []

/-- The `${sheetName}|${cellAddress}` exclusion key. -/
def legacyKey (sheetName addr : String) : String :=
  sheetName ++ "|" ++ addr

/-- The record (if any) the legacy scan emits for one cell (lines
401-423). -/
def legacyCell (existing : List String) (sheetName : String) (cell : ECell) : Option ExcelComment :=
  if existing.contains (legacyKey sheetName cell.address) then none
  else
    match cell.note with
    | none => none
    | some note =>
      if noteTruthy note then
        if 0 < (jsTrimS (getCommentContent note).1).length then
          some { sheetName := sheetName, cellAddress := cell.address,
                 originalContent := jsOrS (jsTrimS (getCellValueAsString cell.value)) "[Ô trống]",
                 commentContent := cleanCommentContent (getCommentContent note).1,
                 author := (getCommentContent note).2, createdDate := "", status := "N/A" }
        else none
      else none

/-- The records pushed by step 2 (legacy notes), in worksheet scan order:
sheet by sheet, row by row, cell by cell. -/
def legacyBlock (wb : EWorkbook) (existing : List String) : List ExcelComment :=
  wb.sheets.flatMap (fun ws =>
    ws.rows.flatMap (fun row =>
      row.cells.filterMap (legacyCell existing ws.name)))

/-- `extractCommentsFromFile` (lines 333-435): format guards, threaded
pass, then legacy pass keyed against the threaded records. -/
def extractCommentsFromFile (dateFmt : String → Option String) (fileName : String)
    (a : Archive) (wb : EWorkbook) : Except String (List ExcelComment) :=
  if jsEndsWith (jsToLower fileName) ".xls" && !(jsEndsWith (jsToLower fileName) ".xlsx")
      && !(jsEndsWith (jsToLower fileName) ".xlsm") && !(jsEndsWith (jsToLower fileName) ".xlsb") then
    .error xlsMsg
  else if jsEndsWith (jsToLower fileName) ".xlsb" then
    .error xlsbMsg
  else
    .ok (threadedBlock dateFmt a wb ++
      legacyBlock wb ((threadedBlock dateFmt a wb).map (fun c => legacyKey c.sheetName c.cellAddress)))

/-! ## Translation service model

`src/services/translationService.ts`.  Network responses are oracle
functions of a `TransEnv`: `geminiSingle` is the text the single-shot
Gemini call yields (`none` covering a thrown fetch, an error payload or a
missing candidate), `freeData` the parsed item texts of the free-endpoint
response (`none` covering failure or an unexpected shape), and
`geminiBatch` the outcome of one batched call. -/

/-- Outcome of one batched Gemini call for a chunk. -/
inductive BatchResp where
  | throws : BatchResp
  | noContent : BatchResp
  | notArray : BatchResp
  | arr : List String → BatchResp

structure TransEnv where
  apiKey : Bool
  geminiSingle : String → String → Option String
  freeData : String → String → Option (List String)
  geminiBatch : List String → String → BatchResp

/-- `translateWithFreeGoogle` (lines 13-27). -/
def translateWithFreeGoogle (env : TransEnv) (text targetLang : String) : String :=
  match env.freeData text targetLang with
  | some items => String.join items
  | none => text

/-- `translateText` (lines 29-72). -/
def translateText (env : TransEnv) (text targetLang : String) : String :=
  if jsTrimS text = "" then ""
  else if env.apiKey then
    match env.geminiSingle text targetLang with
    | some t => if t = "" then translateWithFreeGoogle env text targetLang else jsTrimS t
    | none => translateWithFreeGoogle env text targetLang
  else translateWithFreeGoogle env text targetLang

/-- The `BATCH_SIZE = 20` slicing of the batch loop. -/
def chunks20Aux : Nat → List String → List (List String)
  | 0, _ => []
  | _ + 1, [] => []
  | fuel + 1, x :: xs => ((x :: xs).take 20) :: chunks20Aux fuel ((x :: xs).drop 20)

def chunks20 (l : List String) : List (List String) :=
  chunks20Aux l.length l

/-- The accumulation of the batched loop (lines 89-122): a proper JSON
array response is spread into `results`, a missing or non-array response
falls back to the chunk itself, and a thrown call abandons the whole
batched pass (`none`). -/
def geminiPass (env : TransEnv) (targetLang : String) : List (List String) → Option (List String)
  | [] => some []
  | c :: cs =>
    match env.geminiBatch c targetLang with
    | .throws => none
    | .arr xs => (geminiPass env targetLang cs).map (fun r => xs ++ r)
    | .noContent => (geminiPass env targetLang cs).map (fun r => c ++ r)
    | .notArray => (geminiPass env targetLang cs).map (fun r => c ++ r)

/-- `translateBatch` (lines 77-142). -/
def translateBatch (env : TransEnv) (texts : List String) (targetLang : String) : List String :=
  if texts.isEmpty then []
  else
    let seqFallback := texts.map (fun t => translateText env t targetLang)
    if env.apiKey then
      match geminiPass env targetLang (chunks20 texts) with
      | some results => if results.length = texts.length then results else seqFallback
      | none => seqFallback
    else seqFallback

/-! ## Lemmas about the cleaning pipeline -/

theorem matchBannerId_eq_none {l : List Char} (h : '=' ∉ l) : matchBannerId l = none := by
  cases l with
  | nil => rfl
  | cons c cs =>
    have hc : (c == '=') = false := by
      simp only [beq_eq_false_iff_ne, ne_eq]
      intro he
      exact h (he ▸ List.mem_cons_self c cs)
    simp [matchBannerId, List.takeWhile_cons, hc]

theorem removeBannerIdAux_of_not_mem : ∀ (fuel : Nat) (l : List Char), '=' ∉ l →
    removeBannerIdAux fuel l = l := by
  intro fuel
  induction fuel with
  | zero => intro l _; rfl
  | succ n ih =>
    intro l h
    cases l with
    | nil => rfl
    | cons c cs =>
      have h2 : '=' ∉ cs := fun hx => h (List.mem_cons_of_mem c hx)
      simp [removeBannerIdAux, matchBannerId_eq_none h, ih cs h2]

theorem removeBannerId_of_not_mem {l : List Char} (h : '=' ∉ l) : removeBannerId l = l :=
  removeBannerIdAux_of_not_mem l.length l h

theorem bannerLine_eq_none {l : List Char} (h : '=' ∉ l) : bannerLine l = none := by
  cases l with
  | nil => rfl
  | cons c cs =>
    have hc : (c == '=') = false := by
      simp only [beq_eq_false_iff_ne, ne_eq]
      intro he
      exact h (he ▸ List.mem_cons_self c cs)
    simp [bannerLine, List.takeWhile_cons, hc]

theorem stripBannerLinesAux_of_not_mem : ∀ (fuel : Nat) (b : Bool) (l : List Char), '=' ∉ l →
    stripBannerLinesAux fuel b l = l := by
  intro fuel
  induction fuel with
  | zero => intro b l _; rfl
  | succ n ih =>
    intro b l h
    cases l with
    | nil => rfl
    | cons c cs =>
      have h2 : '=' ∉ cs := fun hx => h (List.mem_cons_of_mem c hx)
      cases b with
      | true => simp [stripBannerLinesAux, bannerLine_eq_none h, ih _ cs h2]
      | false => simp [stripBannerLinesAux, ih _ cs h2]

theorem stripBannerLines_of_not_mem {l : List Char} (h : '=' ∉ l) : stripBannerLines l = l :=
  stripBannerLinesAux_of_not_mem l.length true l h

theorem isPrefixOf_id_eq_false {l : List Char} (h : '#' ∉ l) :
    ("ID#".data).isPrefixOf l = false := by
  cases hp : ("ID#".data).isPrefixOf l with
  | false => rfl
  | true =>
    exfalso
    obtain ⟨t, ht⟩ := List.isPrefixOf_iff_prefix.mp hp
    apply h
    rw [← ht]
    simp

theorem idLine_eq_none {l : List Char} (h : '#' ∉ l) : idLine l = none := by
  simp [idLine, isPrefixOf_id_eq_false h]

theorem stripIdLinesAux_of_not_mem : ∀ (fuel : Nat) (b : Bool) (l : List Char), '#' ∉ l →
    stripIdLinesAux fuel b l = l := by
  intro fuel
  induction fuel with
  | zero => intro b l _; rfl
  | succ n ih =>
    intro b l h
    cases l with
    | nil => rfl
    | cons c cs =>
      have h2 : '#' ∉ cs := fun hx => h (List.mem_cons_of_mem c hx)
      cases b with
      | true => simp [stripIdLinesAux, idLine_eq_none h, ih _ cs h2]
      | false => simp [stripIdLinesAux, ih _ cs h2]

theorem stripIdLines_of_not_mem {l : List Char} (h : '#' ∉ l) : stripIdLines l = l :=
  stripIdLinesAux_of_not_mem l.length true l h

theorem rtrimWs_cons (c : Char) (cs : List Char) :
    rtrimWs (c :: cs) = if (rtrimWs cs).isEmpty && isWs c then [] else c :: rtrimWs cs := rfl

theorem rtrimWs_subset : ∀ {l : List Char} {x : Char}, x ∈ rtrimWs l → x ∈ l := by
  intro l
  induction l with
  | nil => intro x hx; exact absurd hx (by simp [rtrimWs])
  | cons c cs ih =>
    intro x hx
    rw [rtrimWs_cons] at hx
    split at hx
    · exact absurd hx (by simp)
    · rcases List.mem_cons.mp hx with h | h
      · exact h ▸ List.mem_cons_self c cs
      · exact List.mem_cons_of_mem c (ih h)

theorem rtrimWs_idem : ∀ (l : List Char), rtrimWs (rtrimWs l) = rtrimWs l := by
  intro l
  induction l with
  | nil => rfl
  | cons c cs ih =>
    rw [rtrimWs_cons]
    split
    · rfl
    · rename_i hcond
      rw [rtrimWs_cons, ih, if_neg hcond]

theorem dropWhile_head_false {p : Char → Bool} : ∀ {l : List Char} {c : Char} {t : List Char},
    l.dropWhile p = c :: t → p c = false := by
  intro l
  induction l with
  | nil => intro c t h; exact absurd h (by simp)
  | cons a as ih =>
    intro c t h
    rw [List.dropWhile_cons] at h
    split at h
    · exact ih h
    · rename_i ha
      cases h
      simpa using ha

theorem jsTrimL_subset {l : List Char} {x : Char} (h : x ∈ jsTrimL l) : x ∈ l :=
  (List.dropWhile_sublist isWs).subset (rtrimWs_subset h)

theorem dropWhile_isWs_jsTrimL (l : List Char) : (jsTrimL l).dropWhile isWs = jsTrimL l := by
  cases h : jsTrimL l with
  | nil => rfl
  | cons c t =>
    have hc : isWs c = false := by
      unfold jsTrimL at h
      cases hd : l.dropWhile isWs with
      | nil => rw [hd] at h; exact absurd h (by simp [rtrimWs])
      | cons d ds =>
        rw [hd, rtrimWs_cons] at h
        split at h
        · exact absurd h (by simp)
        · cases h
          exact dropWhile_head_false hd
    simp [List.dropWhile_cons, hc]

theorem jsTrimL_idem (l : List Char) : jsTrimL (jsTrimL l) = jsTrimL l := by
  show rtrimWs ((jsTrimL l).dropWhile isWs) = jsTrimL l
  rw [dropWhile_isWs_jsTrimL]
  show rtrimWs (rtrimWs (l.dropWhile isWs)) = rtrimWs (l.dropWhile isWs)
  exact rtrimWs_idem _

theorem dropWhile_append_of_forall {p : Char → Bool} : ∀ {xs ys : List Char},
    (∀ x ∈ xs, p x = true) → (xs ++ ys).dropWhile p = ys.dropWhile p := by
  intro xs
  induction xs with
  | nil => intro ys _; rfl
  | cons a as ih =>
    intro ys h
    have ha : p a = true := h a (List.mem_cons_self a as)
    simp only [List.cons_append, List.dropWhile_cons, ha, if_true]
    exact ih (fun x hx => h x (List.mem_cons_of_mem a hx))

theorem dropWhile_idem {p : Char → Bool} (l : List Char) :
    (l.dropWhile p).dropWhile p = l.dropWhile p := by
  cases h : l.dropWhile p with
  | nil => rfl
  | cons c t => simp [List.dropWhile_cons, dropWhile_head_false h]

theorem splitLastLF_append : ∀ {l a b : List Char}, splitLastLF l = some (a, b) → a ++ b = l := by
  intro l
  induction l with
  | nil => intro a b h; simp [splitLastLF] at h
  | cons c cs ih =>
    intro a b h
    cases hr : splitLastLF cs with
    | some p =>
      obtain ⟨a1, b1⟩ := p
      simp only [splitLastLF, hr, Option.some.injEq, Prod.mk.injEq] at h
      obtain ⟨h1, h2⟩ := h
      subst h1
      subst h2
      simp [ih hr]
    | none =>
      simp only [splitLastLF, hr] at h
      by_cases hc : (c == '\n') = true
      · rw [if_pos hc] at h
        simp only [Option.some.injEq, Prod.mk.injEq] at h
        obtain ⟨h1, h2⟩ := h
        subst h1
        subst h2
        rfl
      · rw [if_neg hc] at h
        simp at h

theorem tail_subset {l : List Char} {x : Char} (h : x ∈ l.tail) : x ∈ l := by
  cases l with
  | nil => exact absurd h (by simp)
  | cons c cs => exact List.mem_cons_of_mem c h

theorem jsTrimL_stripLeadingBlank (l : List Char) :
    jsTrimL (stripLeadingBlank l) = jsTrimL l := by
  unfold stripLeadingBlank
  cases h : splitLastLF (l.takeWhile isWs) with
  | none => rfl
  | some p =>
    obtain ⟨a, b⟩ := p
    have hab : a ++ b = l.takeWhile isWs := splitLastLF_append h
    have hws : ∀ x ∈ b.tail, isWs x = true := by
      intro x hx
      apply List.mem_takeWhile_imp (l := l) (p := isWs)
      rw [← hab]
      exact List.mem_append_right a (tail_subset hx)
    show jsTrimL (b.tail ++ l.dropWhile isWs) = jsTrimL l
    unfold jsTrimL
    rw [dropWhile_append_of_forall hws, dropWhile_idem]

theorem stripLeadingBlank_subset {l : List Char} {x : Char} (h : x ∈ stripLeadingBlank l) :
    x ∈ l := by
  unfold stripLeadingBlank at h
  cases hs : splitLastLF (l.takeWhile isWs) with
  | none => rw [hs] at h; exact h
  | some p =>
    obtain ⟨a, b⟩ := p
    rw [hs] at h
    rcases List.mem_append.mp h with h1 | h1
    · have hab : a ++ b = l.takeWhile isWs := splitLastLF_append hs
      apply (List.takeWhile_sublist isWs).subset
      rw [← hab]
      exact List.mem_append_right a (tail_subset h1)
    · exact (List.dropWhile_sublist isWs).subset h1

theorem cleanL_of_no_marker {l : List Char} (h1 : '=' ∉ l) (h2 : '#' ∉ l) :
    cleanL l = jsTrimL l := by
  unfold cleanL
  rw [removeBannerId_of_not_mem h1, stripBannerLines_of_not_mem h1, stripIdLines_of_not_mem h2,
    jsTrimL_stripLeadingBlank]

theorem cleanCommentContent_ne_empty {t : String} (h1 : '=' ∉ t.data) (h2 : '#' ∉ t.data)
    (h3 : jsTrimS t ≠ "") : cleanCommentContent t ≠ "" := by
  intro he
  apply h3
  have hd : cleanL t.data = [] := congrArg String.data he
  rw [cleanL_of_no_marker h1 h2] at hd
  show (⟨jsTrimL t.data⟩ : String) = ""
  rw [hd]

/-- C3 (counterexample): `cleanCommentContent` is not idempotent.  On
`"  ===abc"` the leading spaces keep the banner off a line start during
the first pass, but the final `trim()` exposes it, so a second pass
removes it: `clean("  ===abc") = "===abc"` while
`clean(clean("  ===abc")) = "abc"`. -/
theorem c3_clean_not_idempotent :
    cleanCommentContent (cleanCommentContent "  ===abc") ≠ cleanCommentContent "  ===abc" := by
  decide

/-- C3 (amended): `cleanCommentContent` is idempotent on every input that
contains no `'='` and no `'#'` character (no separator banner and no ID
tag can then arise, so one pass is trimming, which is idempotent); on
general inputs a trailing trim can expose a banner or tag to the line
anchors and a second pass differs, as the counterexample shows. -/
theorem c3_clean_idempotent_no_marker (s : String) (h1 : '=' ∉ s.data) (h2 : '#' ∉ s.data) :
    cleanCommentContent (cleanCommentContent s) = cleanCommentContent s := by
  show (⟨cleanL (cleanL s.data)⟩ : String) = ⟨cleanL s.data⟩
  rw [cleanL_of_no_marker h1 h2]
  have h1b : '=' ∉ jsTrimL s.data := fun hx => h1 (jsTrimL_subset hx)
  have h2b : '#' ∉ jsTrimL s.data := fun hx => h2 (jsTrimL_subset hx)
  rw [cleanL_of_no_marker h1b h2b, jsTrimL_idem]

theorem c3_clean_idempotent_no_marker_witness :
    '=' ∉ ("chào bạn\nghi chú" : String).data ∧ '#' ∉ ("chào bạn\nghi chú" : String).data ∧
      cleanCommentContent (cleanCommentContent "chào bạn\nghi chú") =
        cleanCommentContent "chào bạn\nghi chú" :=
  ⟨by decide, by decide, c3_clean_idempotent_no_marker "chào bạn\nghi chú" (by decide) (by decide)⟩

/-! ## Lemmas about the Map model -/

theorem mapSet_eq_append {α : Type} {m : List (String × α)} {k : String} {v : α}
    (h : m.any (fun p => p.1 == k) = false) : mapSet m k v = m ++ [(k, v)] := by
  unfold mapSet
  rw [h]
  rfl

theorem mem_mapSet {α : Type} {m : List (String × α)} {k : String} {v : α} {x : String × α}
    (h : x ∈ mapSet m k v) : x = (k, v) ∨ x ∈ m := by
  unfold mapSet at h
  split at h
  · obtain ⟨p, hp, he⟩ := List.mem_map.mp h
    by_cases hk : (p.1 == k) = true
    · rw [if_pos hk] at he
      exact Or.inl he.symm
    · rw [if_neg hk] at he
      exact Or.inr (he ▸ hp)
  · rcases List.mem_append.mp h with h1 | h1
    · exact Or.inr h1
    · exact Or.inl (by simpa using h1)

theorem find?_key_cons_pos {α : Type} {p : String × α} (ps : List (String × α)) {k : String}
    (h : (p.1 == k) = true) : List.find? (fun q => q.1 == k) (p :: ps) = some p := by
  simp [List.find?_cons, h]

theorem find?_key_cons_neg {α : Type} {p : String × α} (ps : List (String × α)) {k : String}
    (h : (p.1 == k) = false) :
    List.find? (fun q => q.1 == k) (p :: ps) = List.find? (fun q => q.1 == k) ps := by
  simp [List.find?_cons, h]

theorem mapGet_map_update {α : Type} (k : String) (v : α) : ∀ (m : List (String × α)),
    m.any (fun p => p.1 == k) = true →
    mapGet (m.map (fun p => if p.1 == k then (k, v) else p)) k = some v := by
  intro m
  induction m with
  | nil => intro h; simp at h
  | cons p ps ih =>
    intro hany
    by_cases hp : (p.1 == k) = true
    · rw [List.map_cons, if_pos hp]
      unfold mapGet
      rw [find?_key_cons_pos _ (by simp)]
      rfl
    · rw [List.map_cons, if_neg hp]
      have hps : ps.any (fun q => q.1 == k) = true := by
        rcases List.any_eq_true.mp hany with ⟨q, hq, hqk⟩
        rcases List.mem_cons.mp hq with rfl | hq2
        · exact absurd hqk hp
        · exact List.any_eq_true.mpr ⟨q, hq2, hqk⟩
      unfold mapGet at ih ⊢
      rw [find?_key_cons_neg _ (Bool.eq_false_iff.mpr hp)]
      exact ih hps

theorem mapGet_append_key {α : Type} (k : String) (v : α) : ∀ (m : List (String × α)),
    m.any (fun p => p.1 == k) = false →
    mapGet (m ++ [(k, v)]) k = some v := by
  intro m
  induction m with
  | nil =>
    intro _
    unfold mapGet
    rw [List.nil_append, find?_key_cons_pos _ (by simp)]
    rfl
  | cons p ps ih =>
    intro hany
    rw [List.any_cons] at hany
    have hp : (p.1 == k) = false := by
      cases hx : (p.1 == k) with
      | false => rfl
      | true => rw [hx] at hany; simp at hany
    have hps : ps.any (fun q => q.1 == k) = false := by
      cases hx : ps.any (fun q => q.1 == k) with
      | false => rfl
      | true => rw [hx] at hany; simp at hany
    unfold mapGet at ih ⊢
    rw [List.cons_append, find?_key_cons_neg _ hp]
    exact ih hps

theorem mapGet_mapSet_self {α : Type} (m : List (String × α)) (k : String) (v : α) :
    mapGet (mapSet m k v) k = some v := by
  unfold mapSet
  by_cases hany : m.any (fun p => p.1 == k) = true
  · rw [if_pos hany]
    exact mapGet_map_update k v m hany
  · rw [if_neg hany]
    exact mapGet_append_key k v m (Bool.eq_false_iff.mpr hany)

theorem mapGet_map_update_ne {α : Type} (k : String) (v : α) {q : String} (h : q ≠ k) :
    ∀ (m : List (String × α)),
    mapGet (m.map (fun p => if p.1 == k then (k, v) else p)) q = mapGet m q := by
  intro m
  induction m with
  | nil => rfl
  | cons p ps ih =>
    by_cases hp : (p.1 == k) = true
    · rw [List.map_cons, if_pos hp]
      have hkq : (((k, v) : String × α).1 == q) = false := by
        simp only [beq_eq_false_iff_ne, ne_eq]
        exact fun he => h he.symm
      have hpq : (p.1 == q) = false := by
        have hpk : p.1 = k := by simpa using hp
        simp only [hpk, beq_eq_false_iff_ne, ne_eq]
        exact fun he => h he.symm
      unfold mapGet at ih ⊢
      rw [find?_key_cons_neg _ hkq, find?_key_cons_neg _ hpq]
      exact ih
    · rw [List.map_cons, if_neg hp]
      by_cases hpq : (p.1 == q) = true
      · unfold mapGet
        rw [find?_key_cons_pos _ hpq, find?_key_cons_pos _ hpq]
      · unfold mapGet at ih ⊢
        rw [find?_key_cons_neg _ (Bool.eq_false_iff.mpr hpq),
          find?_key_cons_neg _ (Bool.eq_false_iff.mpr hpq)]
        exact ih

theorem mapGet_append_ne {α : Type} (k : String) (v : α) {q : String} (h : q ≠ k) :
    ∀ (m : List (String × α)), mapGet (m ++ [(k, v)]) q = mapGet m q := by
  intro m
  induction m with
  | nil =>
    have hkq : (((k, v) : String × α).1 == q) = false := by
      simp only [beq_eq_false_iff_ne, ne_eq]
      exact fun he => h he.symm
    unfold mapGet
    rw [List.nil_append, find?_key_cons_neg _ hkq]
  | cons p ps ih =>
    by_cases hpq : (p.1 == q) = true
    · unfold mapGet
      rw [List.cons_append, find?_key_cons_pos _ hpq, find?_key_cons_pos _ hpq]
    · unfold mapGet at ih ⊢
      rw [List.cons_append, find?_key_cons_neg _ (Bool.eq_false_iff.mpr hpq),
        find?_key_cons_neg _ (Bool.eq_false_iff.mpr hpq)]
      exact ih

theorem mapGet_mapSet_ne {α : Type} (m : List (String × α)) (k : String) (v : α) {q : String}
    (h : q ≠ k) : mapGet (mapSet m k v) q = mapGet m q := by
  unfold mapSet
  split
  · exact mapGet_map_update_ne k v h m
  · exact mapGet_append_ne k v h m

/-! ## Lemmas about the threaded-comment result map -/

theorem foldl_step_get_preserve (a : Archive) (key : String) (vs : List TCRec) :
    ∀ (l : List String) (m : List (String × List TCRec)),
    (∀ q ∈ l, resolveSheetName a q = key → partRecords a q = vs) →
    mapGet m key = some vs →
    mapGet (l.foldl (fun m p =>
      if (partRecords a p).isEmpty then m else mapSet m (resolveSheetName a p) (partRecords a p)) m)
      key = some vs := by
  intro l
  induction l with
  | nil => intro m _ h2; exact h2
  | cons q l ih =>
    intro m h1 h2
    rw [List.foldl_cons]
    by_cases hq : (partRecords a q).isEmpty = true
    · rw [if_pos hq]
      exact ih m (fun r hr => h1 r (List.mem_cons_of_mem q hr)) h2
    · rw [if_neg hq]
      apply ih _ (fun r hr => h1 r (List.mem_cons_of_mem q hr))
      by_cases hk : resolveSheetName a q = key
      · rw [hk, h1 q (List.mem_cons_self q l) hk]
        exact mapGet_mapSet_self m key vs
      · rw [mapGet_mapSet_ne _ _ _ (fun he => hk he.symm)]
        exact h2

theorem foldl_step_get (a : Archive) (key : String) (vs : List TCRec) (hne : vs ≠ []) :
    ∀ (l : List String) (m : List (String × List TCRec)),
    (∃ p ∈ l, resolveSheetName a p = key ∧ partRecords a p = vs) →
    (∀ q ∈ l, resolveSheetName a q = key → partRecords a q = vs) →
    mapGet (l.foldl (fun m p =>
      if (partRecords a p).isEmpty then m else mapSet m (resolveSheetName a p) (partRecords a p)) m)
      key = some vs := by
  intro l
  induction l with
  | nil => intro m h _; simp at h
  | cons q l ih =>
    intro m hex hall
    by_cases hq' : ∃ p ∈ l, resolveSheetName a p = key ∧ partRecords a p = vs
    · rw [List.foldl_cons]
      exact ih _ hq' (fun r hr => hall r (List.mem_cons_of_mem q hr))
    · obtain ⟨p, hp, hpk, hpv⟩ := hex
      rcases List.mem_cons.mp hp with rfl | hp2
      · have hqe : (partRecords a p).isEmpty = false := by
          rw [hpv]
          cases vs with
          | nil => exact absurd rfl hne
          | cons x xs => rfl
        rw [List.foldl_cons, if_neg (by rw [hqe]; simp)]
        apply foldl_step_get_preserve a key vs l _
          (fun r hr => hall r (List.mem_cons_of_mem p hr))
        rw [hpk, hpv]
        exact mapGet_mapSet_self m key vs
      · exact absurd ⟨p, hp2, hpk, hpv⟩ hq'

theorem tcResultMap_get (a : Archive) (p : String) (hp : p ∈ tcFiles a)
    (hne : partRecords a p ≠ [])
    (huniq : ∀ q ∈ tcFiles a, resolveSheetName a q = resolveSheetName a p →
      partRecords a q = partRecords a p) :
    mapGet (tcResultMap a) (resolveSheetName a p) = some (partRecords a p) := by
  unfold tcResultMap
  exact foldl_step_get a _ _ hne (tcFiles a) [] ⟨p, hp, rfl, rfl⟩ huniq

theorem foldl_step_mem (a : Archive) :
    ∀ (l : List String) (m : List (String × List TCRec)) (e : String × List TCRec),
    e ∈ l.foldl (fun m p =>
      if (partRecords a p).isEmpty then m else mapSet m (resolveSheetName a p) (partRecords a p)) m →
    e ∈ m ∨ ∃ p ∈ l, e = (resolveSheetName a p, partRecords a p) := by
  intro l
  induction l with
  | nil => intro m e h; exact Or.inl h
  | cons q l ih =>
    intro m e h
    rw [List.foldl_cons] at h
    rcases ih _ e h with h1 | h1
    · by_cases hq : (partRecords a q).isEmpty = true
      · rw [if_pos hq] at h1
        exact Or.inl h1
      · rw [if_neg hq] at h1
        rcases mem_mapSet h1 with h2 | h2
        · exact Or.inr ⟨q, List.mem_cons_self q l, h2⟩
        · exact Or.inl h2
    · obtain ⟨p, hp, he⟩ := h1
      exact Or.inr ⟨p, List.mem_cons_of_mem q hp, he⟩

theorem tcResultMap_mem {a : Archive} {e : String × List TCRec} (h : e ∈ tcResultMap a) :
    ∃ p ∈ tcFiles a, e = (resolveSheetName a p, partRecords a p) := by
  rcases foldl_step_mem a (tcFiles a) [] e h with h1 | h1
  · simp at h1
  · exact h1

theorem foldl_step_append_all (a : Archive) :
    ∀ (l : List String) (m : List (String × List TCRec)),
    (l.map (resolveSheetName a)).Nodup →
    (∀ q ∈ l, ∀ x ∈ m, x.1 ≠ resolveSheetName a q) →
    l.foldl (fun m p =>
      if (partRecords a p).isEmpty then m else mapSet m (resolveSheetName a p) (partRecords a p)) m
    = m ++ l.filterMap (fun p =>
        if (partRecords a p).isEmpty then none
        else some (resolveSheetName a p, partRecords a p)) := by
  intro l
  induction l with
  | nil => intro m _ _; simp
  | cons q l ih =>
    intro m hnd hfresh
    have hnd2 : (l.map (resolveSheetName a)).Nodup := by
      rw [List.map_cons] at hnd
      exact hnd.of_cons
    have hqnotin : resolveSheetName a q ∉ l.map (resolveSheetName a) := by
      rw [List.map_cons] at hnd
      exact (List.nodup_cons.mp hnd).1
    rw [List.foldl_cons, List.filterMap_cons]
    by_cases hq : (partRecords a q).isEmpty = true
    · rw [if_pos hq, if_pos hq]
      exact ih m hnd2 (fun r hr x hx => hfresh r (List.mem_cons_of_mem q hr) x hx)
    · rw [if_neg hq, if_neg hq]
      have hany : m.any (fun p => p.1 == resolveSheetName a q) = false := by
        cases hx : m.any (fun p => p.1 == resolveSheetName a q) with
        | false => rfl
        | true =>
          rcases List.any_eq_true.mp hx with ⟨x, hxm, hxk⟩
          exact absurd (by simpa using hxk)
            (hfresh q (List.mem_cons_self q l) x hxm)
      rw [mapSet_eq_append hany]
      rw [ih (m ++ [(resolveSheetName a q, partRecords a q)]) hnd2 ?_]
      · rw [List.append_assoc]
        rfl
      · intro r hr x hx
        rcases List.mem_append.mp hx with h1 | h1
        · exact hfresh r (List.mem_cons_of_mem q hr) x h1
        · have hx1 : x = (resolveSheetName a q, partRecords a q) := by simpa using h1
          rw [hx1]
          intro he
          have he2 : resolveSheetName a q = resolveSheetName a r := he
          apply hqnotin
          rw [he2]
          exact List.mem_map.mpr ⟨r, hr, rfl⟩

theorem tcResultMap_eq_filterMap (a : Archive)
    (h : ((tcFiles a).map (resolveSheetName a)).Nodup) :
    tcResultMap a = (tcFiles a).filterMap (fun p =>
      if (partRecords a p).isEmpty then none
      else some (resolveSheetName a p, partRecords a p)) := by
  unfold tcResultMap
  rw [foldl_step_append_all a (tcFiles a) [] h (by simp)]
  rfl

theorem flatMap_filterMap_parts (dateFmt : String → Option String) (wb : EWorkbook) (a : Archive) :
    ∀ (l : List String),
    (l.filterMap (fun p =>
        if (partRecords a p).isEmpty then none
        else some (resolveSheetName a p, partRecords a p))).flatMap
      (fun e => e.2.map (mkThreadedComment dateFmt wb e.1))
    = l.flatMap (fun p =>
        (partRecords a p).map (mkThreadedComment dateFmt wb (resolveSheetName a p))) := by
  intro l
  induction l with
  | nil => rfl
  | cons q l ih =>
    rw [List.filterMap_cons, List.flatMap_cons]
    by_cases hq : (partRecords a q).isEmpty = true
    · have hqnil : partRecords a q = [] := List.isEmpty_iff.mp hq
      rw [if_pos hq, ih, hqnil]
      rfl
    · rw [if_neg hq, List.flatMap_cons, ih]

/-! ## Structure of the two output blocks -/

theorem threadedBlock_eq_parts (dateFmt : String → Option String) (a : Archive) (wb : EWorkbook)
    (h : ((tcFiles a).map (resolveSheetName a)).Nodup) :
    threadedBlock dateFmt a wb
      = (tcFiles a).flatMap (fun p =>
          (partRecords a p).map (mkThreadedComment dateFmt wb (resolveSheetName a p))) := by
  unfold threadedBlock extractThreadedComments
  by_cases he : (tcFiles a).isEmpty = true
  · rw [if_pos he]
    rw [List.isEmpty_iff.mp he]
    rfl
  · rw [if_neg he]
    show (tcResultMap a).flatMap _ = _
    rw [tcResultMap_eq_filterMap a h]
    exact flatMap_filterMap_parts dateFmt wb a (tcFiles a)

theorem mem_threadedBlock {dateFmt : String → Option String} {a : Archive} {wb : EWorkbook}
    {c : ExcelComment} (h : c ∈ threadedBlock dateFmt a wb) :
    ∃ p ∈ tcFiles a, ∃ rec ∈ partRecords a p,
      c = mkThreadedComment dateFmt wb (resolveSheetName a p) rec := by
  unfold threadedBlock extractThreadedComments at h
  by_cases he : (tcFiles a).isEmpty = true
  · rw [if_pos he] at h
    simp at h
  · rw [if_neg he] at h
    have h2 : c ∈ (tcResultMap a).flatMap (fun e => e.2.map (mkThreadedComment dateFmt wb e.1)) := h
    obtain ⟨e, he2, hc⟩ := List.mem_flatMap.mp h2
    obtain ⟨p, hp, heq⟩ := tcResultMap_mem he2
    subst heq
    obtain ⟨rec, hrec, hcm⟩ := List.mem_map.mp hc
    exact ⟨p, hp, rec, hrec, hcm.symm⟩

theorem mem_partRecords {a : Archive} {p : String} {rec : TCRec} (h : rec ∈ partRecords a p) :
    ∃ el ∈ partContent a p,
      jsTrimS (jsOr el.text "") ≠ "" ∧
      rec = { sheetName := resolveSheetName a p, cellAddress := jsOr el.ref "",
              text := jsTrimS (jsOr el.text ""),
              author := jsOr (mapGet (personsMap a) (jsOr el.personId "")) "Không rõ",
              timestamp := jsOr el.dT "" } := by
  unfold partRecords at h
  obtain ⟨el, hel, he⟩ := List.mem_filterMap.mp h
  by_cases ht : jsTrimS (jsOr el.text "") = ""
  · rw [if_pos ht] at he
    exact absurd he (by simp)
  · rw [if_neg ht] at he
    exact ⟨el, hel, ht, (Option.some.injEq _ _ ▸ he).symm⟩

theorem legacyCell_some {existing : List String} {sheetName : String} {cell : ECell}
    {c : ExcelComment} (h : legacyCell existing sheetName cell = some c) :
    existing.contains (legacyKey sheetName cell.address) = false ∧
    ∃ note, cell.note = some note ∧ noteTruthy note = true ∧
      0 < (jsTrimS (getCommentContent note).1).length ∧
      c = { sheetName := sheetName, cellAddress := cell.address,
            originalContent := jsOrS (jsTrimS (getCellValueAsString cell.value)) "[Ô trống]",
            commentContent := cleanCommentContent (getCommentContent note).1,
            author := (getCommentContent note).2, createdDate := "", status := "N/A" } := by
  unfold legacyCell at h
  split at h
  · exact absurd h (by simp)
  · rename_i hk
    split at h
    · exact absurd h (by simp)
    · rename_i note hn
      split at h
      · rename_i htr
        split at h
        · rename_i hlen
          cases h
          exact ⟨Bool.eq_false_iff.mpr hk, note, hn, htr, hlen, rfl⟩
        · exact absurd h (by simp)
      · exact absurd h (by simp)

theorem mem_legacyBlock {wb : EWorkbook} {existing : List String} {c : ExcelComment}
    (h : c ∈ legacyBlock wb existing) :
    ∃ ws ∈ wb.sheets, ∃ row ∈ ws.rows, ∃ cell ∈ row.cells,
      legacyCell existing ws.name cell = some c := by
  unfold legacyBlock at h
  obtain ⟨ws, hws, h2⟩ := List.mem_flatMap.mp h
  obtain ⟨row, hrow, h3⟩ := List.mem_flatMap.mp h2
  obtain ⟨cell, hcell, h4⟩ := List.mem_filterMap.mp h3
  exact ⟨ws, hws, row, hrow, cell, hcell, h4⟩

theorem string_len_pos_ne_empty {s : String} (h : 0 < s.length) : s ≠ "" := by
  intro he
  rw [he] at h
  simp at h

/-! ## Suffix reasoning for the file-name guards -/

theorem suffix_of_suffix_eq {l s1 s2 : List Char} (h1 : s1 <:+ l) (h2 : s2 <:+ l)
    (hl : s1.length = s2.length) : s1 = s2 := by
  rcases List.suffix_or_suffix_of_suffix h1 h2 with h | h
  · exact h.eq_of_length hl
  · exact (h.eq_of_length hl.symm).symm

theorem not_ends_xlsx_of_ends_xls {fn : String} (h : jsEndsWith fn ".xls" = true) :
    jsEndsWith fn ".xlsx" = false := by
  cases hx : jsEndsWith fn ".xlsx" with
  | false => rfl
  | true =>
    exfalso
    have h1 : ".xls".data <:+ fn.data := List.isSuffixOf_iff_suffix.mp h
    have h2 : ".xlsx".data <:+ fn.data := List.isSuffixOf_iff_suffix.mp hx
    have h3 : "xlsx".data <:+ fn.data :=
      (show "xlsx".data <:+ ".xlsx".data from ⟨['.'], rfl⟩).trans h2
    exact absurd (suffix_of_suffix_eq h1 h3 (by decide)) (by decide)

theorem not_ends_xlsm_of_ends_xls {fn : String} (h : jsEndsWith fn ".xls" = true) :
    jsEndsWith fn ".xlsm" = false := by
  cases hx : jsEndsWith fn ".xlsm" with
  | false => rfl
  | true =>
    exfalso
    have h1 : ".xls".data <:+ fn.data := List.isSuffixOf_iff_suffix.mp h
    have h2 : ".xlsm".data <:+ fn.data := List.isSuffixOf_iff_suffix.mp hx
    have h3 : "xlsm".data <:+ fn.data :=
      (show "xlsm".data <:+ ".xlsm".data from ⟨['.'], rfl⟩).trans h2
    exact absurd (suffix_of_suffix_eq h1 h3 (by decide)) (by decide)

theorem not_ends_xlsb_of_ends_xls {fn : String} (h : jsEndsWith fn ".xls" = true) :
    jsEndsWith fn ".xlsb" = false := by
  cases hx : jsEndsWith fn ".xlsb" with
  | false => rfl
  | true =>
    exfalso
    have h1 : ".xls".data <:+ fn.data := List.isSuffixOf_iff_suffix.mp h
    have h2 : ".xlsb".data <:+ fn.data := List.isSuffixOf_iff_suffix.mp hx
    have h3 : "xlsb".data <:+ fn.data :=
      (show "xlsb".data <:+ ".xlsb".data from ⟨['.'], rfl⟩).trans h2
    exact absurd (suffix_of_suffix_eq h1 h3 (by decide)) (by decide)

theorem tcFiles_eq_nil_iff (a : Archive) :
    tcFiles a = [] ↔ ∀ e ∈ a.entries, jsIncludes e.1 "threadedComments/threadedComment" = false := by
  unfold tcFiles
  rw [List.filter_eq_nil_iff]
  constructor
  · intro h e he
    have := h e.1 (List.mem_map.mpr ⟨e, he, rfl⟩)
    simpa using this
  · intro h p hp
    obtain ⟨e, he, rfl⟩ := List.mem_map.mp hp
    simp [h e he]

/-- C7: `extractThreadedComments` returns `hasThreadedComments = true` if
and only if some ZIP entry path contains `threadedComments/threadedComment`
(so a part whose comments are all empty still flips the flag: the test is
on entry paths alone, before any element is parsed). -/
theorem c7_hasThreadedComments_iff (a : Archive) :
    (extractThreadedComments a).2 = true ↔
      ∃ e ∈ a.entries, jsIncludes e.1 "threadedComments/threadedComment" = true := by
  unfold extractThreadedComments
  by_cases he : (tcFiles a).isEmpty = true
  · rw [if_pos he]
    have hnil := List.isEmpty_iff.mp he
    rw [tcFiles_eq_nil_iff] at hnil
    simp only [show (([], false) : List (String × List TCRec) × Bool).2 = false from rfl]
    constructor
    · intro h
      exact absurd h (by simp)
    · rintro ⟨e, hee, hinc⟩
      rw [hnil e hee] at hinc
      exact absurd hinc (by simp)
  · rw [if_neg he]
    have hne : tcFiles a ≠ [] := fun hx => he (by rw [hx]; rfl)
    constructor
    · intro _
      cases hx : tcFiles a with
      | nil => exact absurd hx hne
      | cons p ps =>
        have hp : p ∈ tcFiles a := by
          rw [hx]
          exact List.mem_cons_self p ps
        unfold tcFiles at hp
        obtain ⟨hp1, hp2⟩ := List.mem_filter.mp hp
        obtain ⟨e, hee, rfl⟩ := List.mem_map.mp hp1
        exact ⟨e, hee, hp2⟩
    · intro _
      rfl

/-- Empty archive and workbook used by witnesses of the format guards. -/
def archEmpty : Archive :=
  { personsPart := none, workbookSheets := none, workbookRels := none, sheetRels := []
  , entries := [] }

def wbEmpty : EWorkbook :=
  { sheets := [] }

/-- C8: a file whose lowercased name ends in `.xlsb` is rejected with the
`.xlsb` message for every archive and workbook (so before any archive or
XML parsing can matter), and likewise a `.xls` name with the `.xls`
message; both messages name the rejected format and point to `.xlsx`. -/
theorem c8_rejects_binary_formats (dateFmt : String → Option String) (fileName : String)
    (a : Archive) (wb : EWorkbook) :
    (jsEndsWith (jsToLower fileName) ".xlsb" = true →
      extractCommentsFromFile dateFmt fileName a wb = .error xlsbMsg) ∧
    (jsEndsWith (jsToLower fileName) ".xls" = true →
      extractCommentsFromFile dateFmt fileName a wb = .error xlsMsg) ∧
    jsIncludes xlsbMsg ".xlsb" = true ∧ jsIncludes xlsbMsg ".xlsx" = true ∧
    jsIncludes xlsMsg ".xls" = true ∧ jsIncludes xlsMsg ".xlsx" = true := by
  refine ⟨?_, ?_, by decide, by decide, by decide, by decide⟩
  · intro h
    unfold extractCommentsFromFile
    rw [h]
    simp
  · intro h
    unfold extractCommentsFromFile
    rw [h, not_ends_xlsx_of_ends_xls h, not_ends_xlsm_of_ends_xls h, not_ends_xlsb_of_ends_xls h]
    simp

theorem c8_rejects_binary_formats_witness :
    extractCommentsFromFile (fun _ => none) "report.XLSB" archEmpty wbEmpty = .error xlsbMsg ∧
    extractCommentsFromFile (fun _ => none) "old.XLS" archEmpty wbEmpty = .error xlsMsg :=
  ⟨(c8_rejects_binary_formats (fun _ => none) "report.XLSB" archEmpty wbEmpty).1 (by decide),
   (c8_rejects_binary_formats (fun _ => none) "old.XLS" archEmpty wbEmpty).2.1 (by decide)⟩

/-- C5: a threaded comment whose `personId` has no entry in the persons
table (in particular when the persons part is absent) is still emitted by
the per-part record extraction, with the author set to the unknown-author
sentinel `Không rõ`; the failed lookup only determines the author field
and never filters the record (only blank text does). -/
theorem c5_missing_person_unknown_author (a : Archive) (p : String) (el : TCElem)
    (hel : el ∈ partContent a p)
    (hperson : mapGet (personsMap a) (jsOr el.personId "") = none)
    (htext : jsTrimS (jsOr el.text "") ≠ "") :
    ({ sheetName := resolveSheetName a p, cellAddress := jsOr el.ref "",
       text := jsTrimS (jsOr el.text ""), author := "Không rõ",
       timestamp := jsOr el.dT "" } : TCRec) ∈ partRecords a p := by
  unfold partRecords
  apply List.mem_filterMap.mpr
  refine ⟨el, hel, ?_⟩
  rw [if_neg htext, hperson]
  rfl

/-- Archive whose only threaded comment carries a `personId` that the
persons table does not contain. -/
def archC5 : Archive :=
  { personsPart := some [{ id := some "p1", displayName := some "Alice" }]
  , workbookSheets := some [{ name := some "Sheet1", rid := some "rId1" }]
  , workbookRels := none, sheetRels := []
  , entries := [("xl/threadedComments/threadedComment1.xml",
      [{ ref := some "D16", personId := some "p9", dT := some "", text := some "hello" }])] }

theorem c5_missing_person_unknown_author_witness :
    ({ ref := some "D16", personId := some "p9", dT := some "", text := some "hello" } : TCElem)
        ∈ partContent archC5 "xl/threadedComments/threadedComment1.xml" ∧
    ({ sheetName := "Sheet1", cellAddress := "D16", text := "hello",
       author := "Không rõ", timestamp := "" } : TCRec)
        ∈ partRecords archC5 "xl/threadedComments/threadedComment1.xml" :=
  ⟨by decide,
   c5_missing_person_unknown_author archC5 "xl/threadedComments/threadedComment1.xml"
     { ref := some "D16", personId := some "p9", dT := some "", text := some "hello" }
     (by decide) (by decide) (by decide)⟩

/-! ## C9: translateBatch -/

/-- The slice of `texts` that the batch loop sends in the chunk containing
index `i`. -/
def chunkOfIndex (texts : List String) (i : Nat) : List String :=
  (texts.drop (20 * (i / 20))).take 20

/-- Modelled from the spec: the claimed per-element correspondence of
`translateBatch` — element `i` of the result is `texts[i]` itself, the
batched translation the backend aligned to position `i` of its chunk, or
the per-text translation of `texts[i]`. -/
def c9Corresponds (env : TransEnv) (texts : List String) (targetLang : String) : Prop :=
  ∀ i, i < texts.length →
    (translateBatch env texts targetLang)[i]? = texts[i]? ∨
    (translateBatch env texts targetLang)[i]?
      = (match env.geminiBatch (chunkOfIndex texts i) targetLang with
         | .arr xs => xs[i % 20]?
         | _ => none) ∨
    (translateBatch env texts targetLang)[i]?
      = some (translateText env (texts[i]?.getD "") targetLang)

def textsC9 : List String :=
  (List.range 21).map (fun i => "t" ++ toString i)

/-- A backend whose first chunk response has 19 elements and whose second
has 2: total length matches, so the batch path returns the spliced list. -/
def envC9 : TransEnv :=
  { apiKey := true
  , geminiSingle := fun _ _ => none
  , freeData := fun t _ => some [t, "-free"]
  , geminiBatch := fun chunk _ =>
      if chunk.length == 20 then .arr ((List.range 19).map (fun i => "x" ++ toString i))
      else .arr ["x19", "x20"] }

/-- C9 (counterexample): on 21 texts with chunk responses of lengths 19
and 2, `translateBatch` returns a list of the correct total length whose
element 19 is the backend's first answer for the second chunk — neither
`texts[19]`, nor a batched translation aligned to position 19, nor the
per-text translation of `texts[19]` — so the claimed element-wise
correspondence fails even though the length is preserved. -/
theorem c9_not_corresponding :
    (translateBatch envC9 textsC9 "en").length = textsC9.length ∧
    ¬ c9Corresponds envC9 textsC9 "en" := by
  refine ⟨by decide, ?_⟩
  intro h
  rcases h 19 (by decide) with h1 | h1 | h1
  · exact absurd h1 (by decide)
  · exact absurd h1 (by decide)
  · exact absurd h1 (by decide)

/-- C9 (amended): `translateBatch` always returns exactly one element per
input text (a spliced batch result is returned only after the length
check, and the sequential fallback translates one by one); when no API
key is configured, element `i` is exactly `translateText` of `texts[i]`.
The stronger claimed correspondence can misalign, as the counterexample
shows, when chunk responses have mismatched lengths that sum correctly. -/
theorem c9_translateBatch_length (env : TransEnv) (texts : List String) (targetLang : String) :
    (translateBatch env texts targetLang).length = texts.length ∧
    (env.apiKey = false →
      translateBatch env texts targetLang = texts.map (fun t => translateText env t targetLang)) := by
  constructor
  · unfold translateBatch
    by_cases he : texts.isEmpty = true
    · rw [if_pos he, List.isEmpty_iff.mp he]
    · rw [if_neg he]
      by_cases hk : env.apiKey = true
      · rw [if_pos hk]
        cases hg : geminiPass env targetLang (chunks20 texts) with
        | none =>
          exact List.length_map texts _
        | some results =>
          show (if results.length = texts.length then results
            else texts.map (fun t => translateText env t targetLang)).length = texts.length
          by_cases hl : results.length = texts.length
          · rw [if_pos hl]
            exact hl
          · rw [if_neg hl]
            exact List.length_map texts _
      · rw [if_neg hk]
        exact List.length_map texts _
  · intro hk
    unfold translateBatch
    by_cases he : texts.isEmpty = true
    · rw [if_pos he, List.isEmpty_iff.mp he]
      rfl
    · rw [if_neg he, hk]
      rfl

/-- Key-less backend used by the witness. -/
def envC9w : TransEnv :=
  { apiKey := false
  , geminiSingle := fun _ _ => none
  , freeData := fun t _ => some [t, "-viet"]
  , geminiBatch := fun _ _ => .throws }

theorem c9_translateBatch_length_witness :
    (translateBatch envC9w ["hello"] "vi").length = (["hello"] : List String).length ∧
    translateBatch envC9w ["hello"] "vi" = ["hello-viet"] :=
  ⟨(c9_translateBatch_length envC9w ["hello"] "vi").1, by
    have h := (c9_translateBatch_length envC9w ["hello"] "vi").2 rfl
    rw [h]
    rfl⟩

/-! ## Shape of a successful extraction -/

theorem extract_ok_eq {dateFmt : String → Option String} {fileName : String} {a : Archive}
    {wb : EWorkbook} {out : List ExcelComment}
    (h : extractCommentsFromFile dateFmt fileName a wb = .ok out) :
    out = threadedBlock dateFmt a wb
      ++ legacyBlock wb
          ((threadedBlock dateFmt a wb).map (fun c => legacyKey c.sheetName c.cellAddress)) := by
  unfold extractCommentsFromFile at h
  split at h
  · exact absurd h (by simp)
  · split at h
    · exact absurd h (by simp)
    · cases h
      rfl

theorem contains_of_mem {l : List String} {x : String} (h : x ∈ l) : l.contains x = true :=
  List.elem_iff.mpr h

/-- Archive with one threaded-comment part holding two comments on the
same cell (a thread with a reply), resolved to `Sheet1` through the
relationship chain. -/
def archC1 : Archive :=
  { personsPart := some [{ id := some "p1", displayName := some "Alice" }]
  , workbookSheets := some [{ name := some "Sheet1", rid := some "rId1" }]
  , workbookRels := some [{ relId := some "rId1", target := some "worksheets/sheet1.xml" }]
  , sheetRels := [(1, [{ relId := some "rId3", target := some "../threadedComments/threadedComment1.xml" }])]
  , entries := [("xl/threadedComments/threadedComment1.xml",
      [ { ref := some "A1", personId := some "p1", dT := some "", text := some "first note" }
      , { ref := some "A1", personId := some "p1", dT := some "", text := some "second note" } ])] }

def wbC1 : EWorkbook :=
  { sheets := [{ name := "Sheet1"
               , rows := [{ cells := [{ address := "A1", value := .str "hello", note := none }] }]
               , badAddresses := [] }] }

/-- C1 (counterexample): the pair `(Sheet1, A1)` appears twice in the
output for an archive whose threaded-comment part holds two
`<threadedComment>` elements with the same `ref` (a comment and its
reply): nothing deduplicates within the threaded pass, so "exactly once"
fails. -/
theorem c1_pair_appears_twice :
    (((extractCommentsFromFile (fun _ => none) "book.xlsx" archC1 wbC1).toOption.getD []).countP
      (fun c => c.sheetName == "Sheet1" && c.cellAddress == "A1")) = 2 := by
  rfl

/-- C1 (amended): the output is the threaded block followed by the legacy
block, and no legacy record shares its `(sheetName, cellAddress)` pair
with any threaded record — when a cell has both a threaded comment and a
legacy note, only the threaded record(s) survive, the note being skipped
through the exclusion-key set; however several threaded comments on one
cell (a thread with replies) each produce a record, so a pair need not
appear exactly once. -/
theorem c1_cross_path_exclusion (dateFmt : String → Option String) (fileName : String)
    (a : Archive) (wb : EWorkbook) (out : List ExcelComment)
    (h : extractCommentsFromFile dateFmt fileName a wb = .ok out) :
    out = threadedBlock dateFmt a wb
      ++ legacyBlock wb
          ((threadedBlock dateFmt a wb).map (fun c => legacyKey c.sheetName c.cellAddress)) ∧
    ∀ c ∈ legacyBlock wb
        ((threadedBlock dateFmt a wb).map (fun c => legacyKey c.sheetName c.cellAddress)),
      ∀ c2 ∈ threadedBlock dateFmt a wb,
        ¬(c.sheetName = c2.sheetName ∧ c.cellAddress = c2.cellAddress) := by
  refine ⟨extract_ok_eq h, ?_⟩
  rintro c hc c2 hc2 ⟨hs, ha⟩
  obtain ⟨ws, hws, row, hrow, cell, hcell, hlc⟩ := mem_legacyBlock hc
  obtain ⟨hcontains, note, -, -, -, hcrec⟩ := legacyCell_some hlc
  have h1 : c.sheetName = ws.name := by rw [hcrec]
  have h2 : c.cellAddress = cell.address := by rw [hcrec]
  have hkey : legacyKey ws.name cell.address = legacyKey c2.sheetName c2.cellAddress := by
    rw [← h1, ← h2, hs, ha]
  have hmem : legacyKey c2.sheetName c2.cellAddress
      ∈ (threadedBlock dateFmt a wb).map (fun c => legacyKey c.sheetName c.cellAddress) :=
    List.mem_map.mpr ⟨c2, hc2, rfl⟩
  rw [hkey] at hcontains
  rw [contains_of_mem hmem] at hcontains
  exact absurd hcontains (by simp)

def c1Out : List ExcelComment :=
  (extractCommentsFromFile (fun _ => none) "book.xlsx" archC1 wbC1).toOption.getD []

theorem c1_cross_path_exclusion_witness :
    c1Out = threadedBlock (fun _ => none) archC1 wbC1
      ++ legacyBlock wbC1
          ((threadedBlock (fun _ => none) archC1 wbC1).map
            (fun c => legacyKey c.sheetName c.cellAddress)) ∧
    ∀ c ∈ legacyBlock wbC1
        ((threadedBlock (fun _ => none) archC1 wbC1).map
          (fun c => legacyKey c.sheetName c.cellAddress)),
      ∀ c2 ∈ threadedBlock (fun _ => none) archC1 wbC1,
        ¬(c.sheetName = c2.sheetName ∧ c.cellAddress = c2.cellAddress) :=
  c1_cross_path_exclusion (fun _ => none) "book.xlsx" archC1 wbC1 c1Out rfl

theorem jsTrimS_idem (s : String) : jsTrimS (jsTrimS s) = jsTrimS s := by
  show (⟨jsTrimL (jsTrimL s.data)⟩ : String) = ⟨jsTrimL s.data⟩
  rw [jsTrimL_idem]

/-- Archive whose only comment text is a bare separator banner. -/
def archC2 : Archive :=
  { personsPart := none, workbookSheets := none, workbookRels := none, sheetRels := []
  , entries := [("xl/threadedComments/threadedComment1.xml",
      [{ ref := some "A1", personId := none, dT := none, text := some "===" }])] }

def wbC2 : EWorkbook :=
  { sheets := [{ name := "Sheet1", rows := [], badAddresses := [] }] }

/-- C2 (counterexample): a threaded comment whose whole text is `"==="`
passes the non-blank emission guard (its trimmed text is `"==="`), but
`cleanCommentContent` deletes the banner entirely, so the one record of
the output carries `commentContent = ""`: the cleaning step does not
preserve non-emptiness. -/
theorem c2_empty_commentContent :
    ((extractCommentsFromFile (fun _ => none) "book.xlsx" archC2 wbC2).toOption.getD []).map
      (fun c => c.commentContent) = [""] := by
  rfl

/-- C2 (amended): every record's `commentContent` is `cleanCommentContent`
of a text that was non-empty after trimming (the emission guards check
exactly that), and it is itself non-empty whenever that text contains no
`'='` and no `'#'`; a text made only of banner or ID-tag boilerplate is
cleaned to the empty string, as the counterexample shows. -/
theorem c2_commentContent_source (dateFmt : String → Option String) (fileName : String)
    (a : Archive) (wb : EWorkbook) (out : List ExcelComment)
    (h : extractCommentsFromFile dateFmt fileName a wb = .ok out) :
    ∀ c ∈ out, ∃ t : String, jsTrimS t ≠ "" ∧ c.commentContent = cleanCommentContent t ∧
      ('=' ∉ t.data → '#' ∉ t.data → c.commentContent ≠ "") := by
  intro c hc
  rw [extract_ok_eq h] at hc
  rcases List.mem_append.mp hc with hc1 | hc1
  · obtain ⟨p, hp, rec, hrec, hcm⟩ := mem_threadedBlock hc1
    obtain ⟨el, hel, htext, hrec2⟩ := mem_partRecords hrec
    subst hcm
    subst hrec2
    refine ⟨jsTrimS (jsOr el.text ""), ?_, rfl, ?_⟩
    · show jsTrimS (jsTrimS (jsOr el.text "")) ≠ ""
      rw [jsTrimS_idem]
      exact htext
    · intro h1 h2
      show cleanCommentContent (jsTrimS (jsOr el.text "")) ≠ ""
      apply cleanCommentContent_ne_empty h1 h2
      rw [jsTrimS_idem]
      exact htext
  · obtain ⟨ws, hws, row, hrow, cell, hcell, hlc⟩ := mem_legacyBlock hc1
    obtain ⟨-, note, -, -, hlen, hcrec⟩ := legacyCell_some hlc
    subst hcrec
    refine ⟨(getCommentContent note).1, string_len_pos_ne_empty hlen, rfl, ?_⟩
    intro h1 h2
    show cleanCommentContent (getCommentContent note).1 ≠ ""
    exact cleanCommentContent_ne_empty h1 h2 (string_len_pos_ne_empty hlen)

def c2Out : List ExcelComment :=
  (extractCommentsFromFile (fun _ => none) "book.xlsx" archC2 wbC2).toOption.getD []

def c2Rec : ExcelComment :=
  { sheetName := "Sheet1", cellAddress := "A1", originalContent := "[Ô trống]",
    commentContent := "", author := "Không rõ", createdDate := "", status := "N/A" }

theorem c2_commentContent_source_witness :
    ∃ t : String, jsTrimS t ≠ "" ∧ c2Rec.commentContent = cleanCommentContent t ∧
      ('=' ∉ t.data → '#' ∉ t.data → c2Rec.commentContent ≠ "") :=
  c2_commentContent_source (fun _ => none) "book.xlsx" archC2 wbC2 c2Out rfl c2Rec (by decide)

/-! ## C10: originalContent -/

theorem threadedOriginal_ne_empty {wb : EWorkbook} (key addr : String)
    (hwb : ∀ ws ∈ wb.sheets, ∀ row ∈ ws.rows, ∀ cell ∈ row.cells,
      jsTrimS (getCellValueAsString cell.value) = "" → getCellValueAsString cell.value = "") :
    jsTrimS (threadedOriginal wb key addr) ≠ "" := by
  unfold threadedOriginal
  cases hw : getWorksheet wb key with
  | none =>
    show jsTrimS "[Ô trống]" ≠ ""
    decide
  | some ws =>
    have hwsmem : ws ∈ wb.sheets := List.mem_of_find?_eq_some hw
    show jsTrimS (match wsGetCellValue ws addr with
      | Except.error _ => "[Không đọc được]"
      | Except.ok v => jsOrS (getCellValueAsString v) "[Ô trống]") ≠ ""
    cases hg : wsGetCellValue ws addr with
    | error u =>
      show jsTrimS "[Không đọc được]" ≠ ""
      decide
    | ok v =>
      show jsTrimS (jsOrS (getCellValueAsString v) "[Ô trống]") ≠ ""
      unfold wsGetCellValue at hg
      by_cases hbad : ws.badAddresses.contains addr = true
      · rw [if_pos hbad] at hg
        exact absurd hg (by simp)
      · rw [if_neg hbad] at hg
        have hv : v = ((((wsCells ws).find? (fun c => c.address == addr)).map
            (fun c => c.value)).getD .empty) := by
          cases hg
          rfl
        cases hf : (wsCells ws).find? (fun c => c.address == addr) with
        | none =>
          rw [hf] at hv
          subst hv
          decide
        | some cell =>
          rw [hf] at hv
          subst hv
          show jsTrimS (jsOrS (getCellValueAsString cell.value) "[Ô trống]") ≠ ""
          by_cases hvv : getCellValueAsString cell.value = ""
          · rw [hvv]
            decide
          · have hcellmem : cell ∈ wsCells ws := List.mem_of_find?_eq_some hf
            obtain ⟨cl, hcl, hcell2⟩ := List.mem_flatten.mp hcellmem
            obtain ⟨row, hrow, hrowe⟩ := List.mem_map.mp hcl
            subst hrowe
            have hcond := hwb ws hwsmem row hrow cell hcell2
            unfold jsOrS
            rw [if_neg hvv]
            intro htr
            exact hvv (hcond htr)

theorem legacyBlock_originalContent_ne_empty {wb : EWorkbook} {existing : List String}
    {c : ExcelComment} (hc : c ∈ legacyBlock wb existing) : c.originalContent ≠ "" := by
  obtain ⟨ws, hws, row, hrow, cell, hcell, hlc⟩ := mem_legacyBlock hc
  obtain ⟨-, note, -, -, -, hcrec⟩ := legacyCell_some hlc
  subst hcrec
  show jsOrS (jsTrimS (getCellValueAsString cell.value)) "[Ô trống]" ≠ ""
  by_cases hv : jsTrimS (getCellValueAsString cell.value) = ""
  · unfold jsOrS
    rw [if_pos hv]
    decide
  · unfold jsOrS
    rw [if_neg hv]
    exact hv

/-- C10 (amended): every legacy record has non-empty `originalContent`,
unconditionally — the legacy scan trims before substituting the
empty-cell sentinel, so even a whitespace-only cell keeps the sentinel;
and every record of the output, threaded ones included, has non-empty
`originalContent` provided no cell of the workbook renders to a
non-empty whitespace-only string.  The proviso on the threaded half is
needed: there the code tests truthiness before trimming, so such a cell
yields an empty `originalContent`, as the counterexample shows. -/
theorem c10_originalContent_nonempty (dateFmt : String → Option String) (fileName : String)
    (a : Archive) (wb : EWorkbook) (out : List ExcelComment)
    (h : extractCommentsFromFile dateFmt fileName a wb = .ok out) :
    (∀ c ∈ legacyBlock wb
        ((threadedBlock dateFmt a wb).map (fun c => legacyKey c.sheetName c.cellAddress)),
      c.originalContent ≠ "") ∧
    ((∀ ws ∈ wb.sheets, ∀ row ∈ ws.rows, ∀ cell ∈ row.cells,
        jsTrimS (getCellValueAsString cell.value) = "" → getCellValueAsString cell.value = "") →
      ∀ c ∈ out, c.originalContent ≠ "") := by
  constructor
  · intro c hc
    exact legacyBlock_originalContent_ne_empty hc
  · intro hwb c hc
    rw [extract_ok_eq h] at hc
    rcases List.mem_append.mp hc with hc1 | hc1
    · obtain ⟨p, hp, rec, hrec, hcm⟩ := mem_threadedBlock hc1
      subst hcm
      exact threadedOriginal_ne_empty (resolveSheetName a p) rec.cellAddress hwb
    · exact legacyBlock_originalContent_ne_empty hc1

/-- Archive with one threaded comment on cell `A1`. -/
def archC10 : Archive :=
  { personsPart := none, workbookSheets := none, workbookRels := none, sheetRels := []
  , entries := [("xl/threadedComments/threadedComment1.xml",
      [{ ref := some "A1", personId := none, dT := none, text := some "note here" }])] }

/-- Workbook whose `Sheet1!A1` holds the one-space string `" "`. -/
def wbC10 : EWorkbook :=
  { sheets := [{ name := "Sheet1"
               , rows := [{ cells := [{ address := "A1", value := .str " ", note := none }] }]
               , badAddresses := [] }] }

/-- C10 (counterexample): a threaded comment attached to a cell whose
stored value is the one-space string renders to `" "`, which is truthy,
so the empty-cell sentinel is skipped; the subsequent `trim()` then
leaves `originalContent = ""` in the output record. -/
theorem c10_empty_originalContent :
    ((extractCommentsFromFile (fun _ => none) "book.xlsx" archC10 wbC10).toOption.getD []).map
      (fun c => c.originalContent) = [""] := by
  rfl

/-- Workbook whose `Sheet1!A1` holds a normal string. -/
def wbC10w : EWorkbook :=
  { sheets := [{ name := "Sheet1"
               , rows := [{ cells := [{ address := "A1", value := .str "doanh thu", note := none }] }]
               , badAddresses := [] }] }

def c10Out : List ExcelComment :=
  (extractCommentsFromFile (fun _ => none) "book.xlsx" archC10 wbC10w).toOption.getD []

def c10Rec : ExcelComment :=
  { sheetName := "Sheet1", cellAddress := "A1", originalContent := "doanh thu",
    commentContent := "note here", author := "Không rõ", createdDate := "", status := "N/A" }

/-- Workbook whose `Sheet1!B2` holds a one-space value and carries a
legacy note: the record the scan emits for it keeps the empty-cell
sentinel as its `originalContent`. -/
def wbC10L : EWorkbook :=
  { sheets := [{ name := "Sheet1"
               , rows := [{ cells := [{ address := "B2", value := .str " "
                                      , note := some (.str "ghi chú") }] }]
               , badAddresses := [] }] }

def c10LOut : List ExcelComment :=
  (extractCommentsFromFile (fun _ => none) "book.xlsx" archEmpty wbC10L).toOption.getD []

def c10LegacyRec : ExcelComment :=
  { sheetName := "Sheet1", cellAddress := "B2", originalContent := "[Ô trống]",
    commentContent := "ghi chú", author := "Không rõ", createdDate := "", status := "N/A" }

theorem c10_originalContent_nonempty_witness :
    c10LegacyRec.originalContent ≠ "" ∧ c10Rec.originalContent ≠ "" :=
  ⟨(c10_originalContent_nonempty (fun _ => none) "book.xlsx" archEmpty wbC10L c10LOut rfl).1
      c10LegacyRec (by decide),
   (c10_originalContent_nonempty (fun _ => none) "book.xlsx" archC10 wbC10w c10Out rfl).2
      (by decide) c10Rec (by decide)⟩

/-! ## C4: unresolved parts -/

/-- C4 (amended): a threaded-comment part with non-empty records whose
resolved (possibly synthesized) sheet name differs from every other
part's resolved name keeps its records in the result map under that name
— in particular an unresolvable part survives under its placeholder; but
when two parts resolve or synthesize the same name, the later `Map.set`
overwrites the earlier part's records, which are then silently dropped,
as the counterexample shows. -/
theorem c4_unresolved_part_kept (a : Archive) (p : String) (hp : p ∈ tcFiles a)
    (hne : partRecords a p ≠ [])
    (huniq : ∀ q ∈ tcFiles a, q ≠ p → resolveSheetName a q ≠ resolveSheetName a p) :
    mapGet (extractThreadedComments a).1 (resolveSheetName a p) = some (partRecords a p) := by
  unfold extractThreadedComments
  have hemp : (tcFiles a).isEmpty = false := by
    cases hx : tcFiles a with
    | nil =>
      rw [hx] at hp
      simp at hp
    | cons q qs => rfl
  rw [if_neg (by rw [hemp]; simp)]
  show mapGet (tcResultMap a) (resolveSheetName a p) = some (partRecords a p)
  apply tcResultMap_get a p hp hne
  intro q hq hname
  by_cases hqp : q = p
  · rw [hqp]
  · exact absurd hname (huniq q hq hqp)

/-- Archive with two threaded-comment parts that cannot be resolved to a
sheet through any fallback (their suffixes are not numeric), both with
non-empty comment text. -/
def archC4 : Archive :=
  { personsPart := none, workbookSheets := none, workbookRels := none, sheetRels := []
  , entries := [ ("xl/threadedComments/threadedCommentA.xml",
                   [{ ref := some "A1", personId := none, dT := none, text := some "from part A" }])
               , ("xl/threadedComments/threadedCommentB.xml",
                   [{ ref := some "B2", personId := none, dT := none, text := some "from part B" }]) ] }

/-- C4 (counterexample): part A produces a non-empty record list under
the placeholder `Unknown Sheet`, yet the final comments map holds only
part B's records: both unresolvable parts synthesize the same placeholder
and the second `Map.set` overwrites the first, silently discarding part
A's records. -/
theorem c4_part_records_dropped :
    partRecords archC4 "xl/threadedComments/threadedCommentA.xml"
      = [{ sheetName := "Unknown Sheet", cellAddress := "A1", text := "from part A",
           author := "Không rõ", timestamp := "" }] ∧
    (extractThreadedComments archC4).1
      = [("Unknown Sheet",
          [{ sheetName := "Unknown Sheet", cellAddress := "B2", text := "from part B",
             author := "Không rõ", timestamp := "" }])] :=
  ⟨rfl, rfl⟩

/-- Archive with a single unresolvable threaded-comment part. -/
def archC4w : Archive :=
  { personsPart := none, workbookSheets := none, workbookRels := none, sheetRels := []
  , entries := [("xl/threadedComments/threadedCommentA.xml",
      [{ ref := some "A1", personId := none, dT := none, text := some "kept comment" }])] }

theorem c4_unresolved_part_kept_witness :
    mapGet (extractThreadedComments archC4w).1
        (resolveSheetName archC4w "xl/threadedComments/threadedCommentA.xml")
      = some (partRecords archC4w "xl/threadedComments/threadedCommentA.xml") :=
  c4_unresolved_part_kept archC4w "xl/threadedComments/threadedCommentA.xml"
    (by decide) (by decide) (by decide)

/-! ## C6: output ordering -/

/-- Archive with three threaded-comment parts in ZIP order; parts 1 and 3
synthesize the same placeholder `Sheet1`, part 2 synthesizes `Sheet2`. -/
def archC6 : Archive :=
  { personsPart := none, workbookSheets := none, workbookRels := none, sheetRels := []
  , entries := [ ("xl/threadedComments/threadedComment1.xml",
                   [{ ref := some "A1", personId := none, dT := none, text := some "from part one" }])
               , ("xl/threadedComments/threadedComment2.xml",
                   [{ ref := some "A2", personId := none, dT := none, text := some "from part two" }])
               , ("backup/threadedComments/threadedComment1.xml",
                   [{ ref := some "A3", personId := none, dT := none, text := some "from part three" }]) ] }

/-- C6 (counterexample): with parts enumerated in the order one, two,
three, the output lists part three's record before part two's (and drops
part one's entirely): the threaded block follows the comments map's
insertion order with in-place overwrite, not archive part order, once two
parts share a resolved sheet name. -/
theorem c6_not_part_order :
    ((extractCommentsFromFile (fun _ => none) "book.xlsx" archC6 wbEmpty).toOption.getD []).map
      (fun c => c.commentContent) = ["from part three", "from part two"] := by
  rfl

/-- C6 (amended): when every threaded-comment part resolves to a distinct
sheet name, the output is the threaded records in archive part order (the
flatten of the per-part records over the ZIP enumeration) followed by the
legacy records in worksheet scan order (sheet by sheet, row by row, cell
by cell, the shape of `legacyBlock`); when two parts share a resolved
name the map overwrite breaks part order, as the counterexample shows. -/
theorem c6_output_order (dateFmt : String → Option String) (fileName : String)
    (a : Archive) (wb : EWorkbook) (out : List ExcelComment)
    (h : extractCommentsFromFile dateFmt fileName a wb = .ok out)
    (hnd : ((tcFiles a).map (resolveSheetName a)).Nodup) :
    out = (tcFiles a).flatMap (fun p =>
        (partRecords a p).map (mkThreadedComment dateFmt wb (resolveSheetName a p)))
      ++ legacyBlock wb
          ((threadedBlock dateFmt a wb).map (fun c => legacyKey c.sheetName c.cellAddress)) := by
  rw [extract_ok_eq h, threadedBlock_eq_parts dateFmt a wb hnd]

/-- Archive with two distinct-name threaded-comment parts. -/
def archC6w : Archive :=
  { personsPart := none, workbookSheets := none, workbookRels := none, sheetRels := []
  , entries := [ ("xl/threadedComments/threadedComment1.xml",
                   [{ ref := some "A1", personId := none, dT := none, text := some "one" }])
               , ("xl/threadedComments/threadedComment2.xml",
                   [{ ref := some "A2", personId := none, dT := none, text := some "two" }]) ] }

def c6wOut : List ExcelComment :=
  (extractCommentsFromFile (fun _ => none) "book.xlsx" archC6w wbEmpty).toOption.getD []

theorem c6_output_order_witness :
    c6wOut = (tcFiles archC6w).flatMap (fun p =>
        (partRecords archC6w p).map
          (mkThreadedComment (fun _ => none) wbEmpty (resolveSheetName archC6w p)))
      ++ legacyBlock wbEmpty
          ((threadedBlock (fun _ => none) archC6w wbEmpty).map
            (fun c => legacyKey c.sheetName c.cellAddress)) :=
  c6_output_order (fun _ => none) "book.xlsx" archC6w wbEmpty c6wOut rfl (by decide)
